import Mathlib

/-!
Verification of the dev-events data layer: a shallow embedding of the
event/booking validation and normalization code (slug generation, date/time
canonicalization, email and referential checks) and of the connection-caching
utility, together with proofs of the specified properties.

Strings are modeled as `List Char` (Lean `String.data`); JavaScript string
primitives used by the source (`trim`, `toLowerCase`, the regex classes
`\s` and `\d`) are embedded character-by-character below.
-/

deriving instance DecidableEq for Except

/-- Codepoints matched by the JavaScript whitespace class: the set matched by
the regex class `\s` and removed by `String.prototype.trim` (WhiteSpace and
LineTerminator code points). -/
def isWsCode (n : Nat) : Bool :=
  n == 9 || n == 10 || n == 11 || n == 12 || n == 13 || n == 32 ||
  n == 160 || n == 5760 || (decide (8192 ≤ n) && decide (n ≤ 8202)) ||
  n == 8232 || n == 8233 || n == 8239 || n == 8287 || n == 12288 || n == 65279

/-- A character is JavaScript whitespace. -/
def isJsWhitespace (c : Char) : Bool := isWsCode c.toNat

/-- Embedding of JavaScript `String.prototype.trim`: drop whitespace from both
ends. -/
def jsTrim (l : List Char) : List Char :=
  List.rdropWhile isJsWhitespace (l.dropWhile isJsWhitespace)

/-- `trim` on the `String` wrapper. -/
def jsTrimS (s : String) : String := String.mk (jsTrim s.data)

/-- Embedding of JavaScript `toLowerCase` on one character, for the ASCII
range the slug pipeline can keep (all other characters are either already
outside `A`-`Z` or are removed by the slug filter). -/
def jsToLowerChar : Char → Char
  | 'A' => 'a'
  | 'B' => 'b'
  | 'C' => 'c'
  | 'D' => 'd'
  | 'E' => 'e'
  | 'F' => 'f'
  | 'G' => 'g'
  | 'H' => 'h'
  | 'I' => 'i'
  | 'J' => 'j'
  | 'K' => 'k'
  | 'L' => 'l'
  | 'M' => 'm'
  | 'N' => 'n'
  | 'O' => 'o'
  | 'P' => 'p'
  | 'Q' => 'q'
  | 'R' => 'r'
  | 'S' => 's'
  | 'T' => 't'
  | 'U' => 'u'
  | 'V' => 'v'
  | 'W' => 'w'
  | 'X' => 'x'
  | 'Y' => 'y'
  | 'Z' => 'z'
  | c => c

/-- Characters kept by the slug filter `replace(/[^a-z0-9\s-]/g, "")`:
lowercase ASCII letters, digits, whitespace, hyphen. -/
def isSlugKeepChar (c : Char) : Bool :=
  (decide (97 ≤ c.toNat) && decide (c.toNat ≤ 122)) ||
  (decide (48 ≤ c.toNat) && decide (c.toNat ≤ 57)) ||
  isJsWhitespace c || c == '-'

/-- Characters that may appear in a finished slug: lowercase ASCII letters,
digits, hyphen. -/
def isSlugOutChar (c : Char) : Bool :=
  (decide (97 ≤ c.toNat) && decide (c.toNat ≤ 122)) ||
  (decide (48 ≤ c.toNat) && decide (c.toNat ≤ 57)) || c == '-'

/-- Worker for `collapseRuns`: the flag records whether the previous input
character was part of a run already replaced by `rep`. -/
def collapseRunsAux (p : Char → Bool) (rep : Char) : Bool → List Char → List Char
  | _, [] => []
  | inRun, c :: rest =>
    if p c then
      if inRun then collapseRunsAux p rep true rest
      else rep :: collapseRunsAux p rep true rest
    else c :: collapseRunsAux p rep false rest

/-- Embedding of a global regex replace of the form `replace(/X+/g, rep)`
where `X` is the character class `p`: each maximal run of characters
satisfying `p` is replaced by the single character `rep`. -/
def collapseRuns (p : Char → Bool) (rep : Char) (l : List Char) : List Char :=
  collapseRunsAux p rep false l

/-- Embedding of the source `slugify`: lowercase, trim, remove every character
outside `[a-z0-9\s-]`, collapse whitespace runs to single hyphens, collapse
hyphen runs to single hyphens. -/
def slugify (l : List Char) : List Char :=
  collapseRuns (fun c => c == '-') '-'
    (collapseRuns isJsWhitespace '-'
      ((jsTrim (l.map jsToLowerChar)).filter isSlugKeepChar))

/-- `slugify` on the `String` wrapper. -/
def slugifyS (s : String) : String := String.mk (slugify s.data)

/-- Embedding of the source `nonEmptyString` helper:
`value.trim().length > 0`. -/
def nonEmptyString (s : String) : Bool := !(jsTrim s.data).isEmpty

/-- The regex class `\d`. -/
def isDigitC (c : Char) : Bool := decide (48 ≤ c.toNat) && decide (c.toNat ≤ 57)

/-- Numeric value of a digit character. -/
def digitVal (c : Char) : Nat := c.toNat - 48

/-- Numeric value of a two-digit sequence, as produced by JavaScript
`Number` on the captured groups. -/
def twoDigitVal (a b : Char) : Nat := 10 * digitVal a + digitVal b

/-- Numeric value of a digit sequence. -/
def natOfDigits (l : List Char) : Nat := l.foldl (fun a c => 10 * a + digitVal c) 0

/-- Two-digit zero-padded decimal rendering (`String(n).padStart(2, "0")`
for `n ≤ 99`, the only range the source formats). -/
def pad2 (n : Nat) : List Char := [Nat.digitChar (n / 10), Nat.digitChar (n % 10)]

/-- Four-digit zero-padded decimal rendering, as `toISOString` renders years
in `0..9999`. -/
def pad4 (n : Nat) : List Char :=
  [Nat.digitChar (n / 1000), Nat.digitChar (n / 100 % 10),
   Nat.digitChar (n / 10 % 10), Nat.digitChar (n % 10)]

/-- Embedding of the regex `/^(\d{1,2}):(\d{2})(?::(\d{2}))?$/` from
`normalizeTime`, returning the numeric hour and minute groups (a seconds
group, when present, is syntax-checked but its value is never used by the
source). The four patterns are the four possible shapes of a full match. -/
def jsTimeMatch : List Char → Option (Nat × Nat)
  | [h1, ':', m1, m2] =>
    if isDigitC h1 && isDigitC m1 && isDigitC m2 then
      some (digitVal h1, twoDigitVal m1 m2)
    else none
  | [h1, h2, ':', m1, m2] =>
    if isDigitC h1 && isDigitC h2 && isDigitC m1 && isDigitC m2 then
      some (twoDigitVal h1 h2, twoDigitVal m1 m2)
    else none
  | [h1, ':', m1, m2, ':', s1, s2] =>
    if isDigitC h1 && isDigitC m1 && isDigitC m2 && isDigitC s1 && isDigitC s2 then
      some (digitVal h1, twoDigitVal m1 m2)
    else none
  | [h1, h2, ':', m1, m2, ':', s1, s2] =>
    if isDigitC h1 && isDigitC h2 && isDigitC m1 && isDigitC m2 && isDigitC s1 && isDigitC s2 then
      some (twoDigitVal h1 h2, twoDigitVal m1 m2)
    else none
  | _ => none

/-- Embedding of the source `normalizeTime`: trim, match the time regex,
range-check hour and minute, and store zero-padded `HH:MM` (a seconds group
is discarded). -/
def normalizeTime (l : List Char) : Except String (List Char) :=
  match jsTimeMatch (jsTrim l) with
  | none => Except.error "Invalid event time. Expected format HH:MM or HH:MM:SS (24-hour)."
  | some (h, m) =>
    if h ≤ 23 ∧ m ≤ 59 then Except.ok (pad2 h ++ ':' :: pad2 m)
    else Except.error "Invalid event time. Hour must be 0-23 and minutes 0-59."

/-- `normalizeTime` on the `String` wrapper. -/
def normalizeTimeS (s : String) : Except String String :=
  (normalizeTime s.data).map String.mk

/-- Leap-year rule of the proleptic Gregorian calendar used by the JavaScript
`Date` object, on astronomically numbered (possibly negative) years. -/
def isLeapYear (y : Int) : Bool := (y % 4 == 0 && y % 100 != 0) || y % 400 == 0

/-- Days in a month of a given year, as accepted by the `Date` parser. -/
def daysInMonth (y : Int) (m : Nat) : Nat :=
  if m == 2 then (if isLeapYear y then 29 else 28)
  else if m == 4 || m == 6 || m == 9 || m == 11 then 30
  else 31

/-- Tail after the seconds of an ISO time component: empty, `Z`, or `.mmm`
with optional `Z`, per the ECMA-262 date-time string format. -/
def isoMsTail : List Char → Bool
  | [] => true
  | ['Z'] => true
  | '.' :: a :: b :: c :: rest =>
    isDigitC a && isDigitC b && isDigitC c && (rest.isEmpty || rest == ['Z'])
  | _ => false

/-- Tail of an ISO time component after the minutes: empty, `Z`, or
`:SS` followed by an `isoMsTail`. -/
def isoSecTail : List Char → Bool
  | [] => true
  | ['Z'] => true
  | ':' :: s1 :: s2 :: rest =>
    isDigitC s1 && isDigitC s2 && decide (twoDigitVal s1 s2 ≤ 59) && isoMsTail rest
  | _ => false

/-- Time-of-day part of an ISO date-time string: either absent or
`THH:MM` (hour `0..23`, minute `0..59`) followed by an `isoSecTail`. -/
def isoTimeTail : List Char → Bool
  | [] => true
  | 'T' :: h1 :: h2 :: ':' :: m1 :: m2 :: rest =>
    isDigitC h1 && isDigitC h2 && isDigitC m1 && isDigitC m2 &&
    decide (twoDigitVal h1 h2 ≤ 23) && decide (twoDigitVal m1 m2 ≤ 59) && isoSecTail rest
  | _ => false

/-- Numeric value of a four-digit year group. -/
def fourDigitVal (a b c d : Char) : Nat :=
  10 * (10 * (10 * digitVal a + digitVal b) + digitVal c) + digitVal d

/-- Numeric value of a six-digit (expanded) year group. -/
def sixDigitVal (a b c d e f : Char) : Nat :=
  10 * (10 * (10 * (10 * (10 * digitVal a + digitVal b) + digitVal c) + digitVal d) +
    digitVal e) + digitVal f

/-- Six-digit zero-padded decimal rendering, as `toISOString` renders the
absolute value of an expanded year. -/
def pad6 (n : Nat) : List Char :=
  [Nat.digitChar (n / 100000), Nat.digitChar (n / 10000 % 10),
   Nat.digitChar (n / 1000 % 10), Nat.digitChar (n / 100 % 10),
   Nat.digitChar (n / 10 % 10), Nat.digitChar (n % 10)]

/-- Day component of an ISO date after the month of a year `y` and month `m`:
either `-DD` followed by a time tail, or absent (day defaults to `1`) with
only a time tail allowed. Returns the `(month, day)` pair. -/
def dayTail (y : Int) (m : Nat) : List Char → Option (Nat × Nat)
  | '-' :: d1 :: d2 :: rest3 =>
    if isDigitC d1 && isDigitC d2 then
      if 1 ≤ twoDigitVal d1 d2 ∧ twoDigitVal d1 d2 ≤ daysInMonth y m ∧
         isoTimeTail rest3 = true
      then some (m, twoDigitVal d1 d2) else none
    else none
  | rest2 => if isoTimeTail rest2 = true then some (m, 1) else none

/-- Month-day part of an ISO date after the year `y`: either `-MM` followed
by a `dayTail`, or absent (month and day default to `1`) with only a time
tail allowed. -/
def monthDayTail (y : Int) : List Char → Option (Nat × Nat)
  | '-' :: m1 :: m2 :: rest2 =>
    if isDigitC m1 && isDigitC m2 then
      if 1 ≤ twoDigitVal m1 m2 ∧ twoDigitVal m1 m2 ≤ 12 then
        dayTail y (twoDigitVal m1 m2) rest2
      else none
    else none
  | rest => if isoTimeTail rest = true then some (1, 1) else none

/-- Four-digit-year branch of the date parser: `YYYY` then month-day and
time tails. -/
def dateFourYear : List Char → Option (Int × Nat × Nat)
  | y1 :: y2 :: y3 :: y4 :: rest =>
    if isDigitC y1 && isDigitC y2 && isDigitC y3 && isDigitC y4 then
      (monthDayTail (Int.ofNat (fourDigitVal y1 y2 y3 y4)) rest).map
        (fun md => (Int.ofNat (fourDigitVal y1 y2 y3 y4), md.1, md.2))
    else none
  | _ => none

/-- Expanded-year branch of the date parser after a `+` sign: six year
digits, then month-day and time tails. -/
def dateExpPos : List Char → Option (Int × Nat × Nat)
  | a :: b :: c :: d :: e :: f :: rest =>
    if isDigitC a && isDigitC b && isDigitC c && isDigitC d && isDigitC e && isDigitC f then
      if sixDigitVal a b c d e f ≤ 275759 then
        (monthDayTail (Int.ofNat (sixDigitVal a b c d e f)) rest).map
          (fun md => (Int.ofNat (sixDigitVal a b c d e f), md.1, md.2))
      else none
    else none
  | _ => none

/-- Expanded-year branch of the date parser after a `-` sign (`-000000` is
not a legal expanded year). -/
def dateExpNeg : List Char → Option (Int × Nat × Nat)
  | a :: b :: c :: d :: e :: f :: rest =>
    if isDigitC a && isDigitC b && isDigitC c && isDigitC d && isDigitC e && isDigitC f then
      if 1 ≤ sixDigitVal a b c d e f ∧ sixDigitVal a b c d e f ≤ 271820 then
        (monthDayTail (-(Int.ofNat (sixDigitVal a b c d e f))) rest).map
          (fun md => (-(Int.ofNat (sixDigitVal a b c d e f)), md.1, md.2))
      else none
    else none
  | _ => none

/-- Model of the calendar parser `new Date(value)` for the repository's date
strings, covering the ECMA-262 date-time string format
`YYYY[-MM[-DD]][THH:MM[:SS[.mmm]]][Z]` with four-digit or signed six-digit
(expanded) years and UTC or absent offset: it returns the signed year and
the UTC calendar-date components that `toISOString()` would render. Expanded
years are admitted throughout the fully representable range
`-271820..275759`; the two boundary years (`-271821` and `275760`), of which
`new Date` accepts only the days near the `±8.64e15` ms limits, and inputs
outside the ECMA-262 format (RFC 2822 dates, explicit numeric offsets,
local-time rendering of offset-free date-times) stay outside the model. -/
def jsDateParse : List Char → Option (Int × Nat × Nat)
  | [] => none
  | c :: rest =>
    if c == '+' then dateExpPos rest
    else if c == '-' then dateExpNeg rest
    else dateFourYear (c :: rest)

/-- `YYYY-MM-DD` rendering of a calendar date, as produced by
`toISOString().slice(0, 10)` for years in `0..9999`. -/
def fmtIsoDate (y m d : Nat) : List Char :=
  pad4 y ++ '-' :: (pad2 m ++ '-' :: pad2 d)

/-- The first ten characters of `toISOString()` of a date with signed year
`y`: the full `YYYY-MM-DD` for years `0..9999`, but for expanded years the
sign, six year digits, a hyphen and the month — `slice(0, 10)` cuts the
expanded ISO string before the day. -/
def fmtJsDate (y : Int) (m d : Nat) : List Char :=
  if 0 ≤ y ∧ y ≤ 9999 then fmtIsoDate y.toNat m d
  else if 0 ≤ y then '+' :: (pad6 y.toNat ++ '-' :: pad2 m)
  else '-' :: (pad6 (-y).toNat ++ '-' :: pad2 m)

/-- Embedding of the source `normalizeDate`: parse as a calendar date, throw
a validation error when unparseable, else store
`toISOString().slice(0, 10)`. -/
def normalizeDate (l : List Char) : Except String (List Char) :=
  match jsDateParse l with
  | some (y, m, d) => Except.ok (fmtJsDate y m d)
  | none => Except.error "Invalid event date. Please provide a valid date value."

/-- Characters allowed by `[^\s@]` in the email regex: no whitespace, no
`@`. -/
def okEmailChar (c : Char) : Bool := !isJsWhitespace c && !(c == '@')

/-- Whether a list has the shape `m ++ '.' :: r` with `r` non-empty, the dot
not being the first character of an enclosing `first :: l`. -/
def dotNotLast : List Char → Bool
  | [] => false
  | [_] => false
  | c :: rest => (c == '.') || dotNotLast rest

/-- Whether a list splits as `m ++ '.' :: r` with `m` and `r` non-empty. -/
def hasInteriorDot : List Char → Bool
  | [] => false
  | _ :: rest => dotNotLast rest

/-- Embedding of the source `isValidEmail`: test of the anchored regex
`/^[^\s@]+@[^\s@]+\.[^\s@]+$/` on the trimmed value. A match decomposes the
trimmed input as a non-empty `[^\s@]` run, an `@`, and a domain of `[^\s@]`
characters containing an interior dot. -/
def isValidEmail (l : List Char) : Bool :=
  match (jsTrim l).dropWhile okEmailChar with
  | x :: d =>
    x == '@' && !((jsTrim l).takeWhile okEmailChar).isEmpty &&
    d.all okEmailChar && hasInteriorDot d
  | [] => false

/-- The shape the specification ascribes to a valid email: non-empty local
part, `@`, and a domain containing a dot, with no whitespace and no extra
`@` anywhere. -/
def EmailShapeSpec (t : List Char) : Prop :=
  ∃ l m r, t = l ++ '@' :: (m ++ '.' :: r) ∧ l ≠ [] ∧ m ≠ [] ∧ r ≠ [] ∧
    (∀ c ∈ l, okEmailChar c = true) ∧ (∀ c ∈ m, okEmailChar c = true) ∧
    (∀ c ∈ r, okEmailChar c = true)

/-- An Event record, with the attribute set of the Mongoose `eventSchema`
(timestamps, which the claims do not mention, are omitted). -/
structure EventDoc where
  title : String
  slug : String
  description : String
  overview : String
  image : String
  venue : String
  location : String
  date : String
  time : String
  mode : String
  audience : String
  agenda : List String
  organizer : String
  tags : List String
deriving DecidableEq

/-- The `trim: true` schema option: Mongoose trims every string path before
validation and storage (array elements have no `trim` option and stay). -/
def trimEventFields (e : EventDoc) : EventDoc :=
  { e with
    title := jsTrimS e.title
    slug := jsTrimS e.slug
    description := jsTrimS e.description
    overview := jsTrimS e.overview
    image := jsTrimS e.image
    venue := jsTrimS e.venue
    location := jsTrimS e.location
    date := jsTrimS e.date
    time := jsTrimS e.time
    mode := jsTrimS e.mode
    audience := jsTrimS e.audience
    organizer := jsTrimS e.organizer }

/-- The validator of the `agenda` and `tags` paths:
`Array.isArray(value) && value.length > 0 && value.every(nonEmptyString)`. -/
def arrayFieldOk (l : List String) : Bool :=
  decide (0 < l.length) && l.all nonEmptyString

/-- The contribution of one path validator to a Mongoose `ValidationError`:
nothing when the validator passes, its message when it fails. -/
def fieldErr (ok : Bool) (msg : String) : List String :=
  if ok then [] else [msg]

/-- The messages of all failing path validators of `eventSchema`, in schema
path order; an empty list means document validation passes. -/
def eventValidationErrors (e : EventDoc) : List String :=
  fieldErr (nonEmptyString e.title) "Event title is required." ++
  fieldErr (nonEmptyString e.description) "Event description is required." ++
  fieldErr (nonEmptyString e.overview) "Event overview is required." ++
  fieldErr (nonEmptyString e.image) "Event image is required." ++
  fieldErr (nonEmptyString e.venue) "Event venue is required." ++
  fieldErr (nonEmptyString e.location) "Event location is required." ++
  fieldErr (nonEmptyString e.date) "Event date is required." ++
  fieldErr (nonEmptyString e.time) "Event time is required." ++
  fieldErr (nonEmptyString e.mode) "Event mode is required." ++
  fieldErr (nonEmptyString e.audience) "Event audience is required." ++
  fieldErr (arrayFieldOk e.agenda) "Event agenda must contain at least one non-empty item." ++
  fieldErr (nonEmptyString e.organizer) "Event organizer is required." ++
  fieldErr (arrayFieldOk e.tags) "Event tags must contain at least one non-empty tag."

/-- One Event save: Mongoose trims the string paths, runs document
validation, then the pre-save hook (slug derivation when the title changed
or no slug is set, then date and time normalization, either of which can
throw). An error anywhere aborts the save, so nothing is persisted. -/
def saveEvent (titleModified : Bool) (e0 : EventDoc) : Except (List String) EventDoc :=
  let e := trimEventFields e0
  let errs := eventValidationErrors e
  if errs.isEmpty then
    let e1 := if (titleModified || e.slug == "") && nonEmptyString e.title
              then { e with slug := slugifyS e.title } else e
    match normalizeDate e1.date.data, normalizeTime e1.time.data with
    | Except.ok d, Except.ok t =>
      Except.ok { e1 with date := String.mk d, time := String.mk t }
    | Except.error msg, _ => Except.error [msg]
    | _, Except.error msg => Except.error [msg]
  else Except.error errs

/-- The persistent document store as the Booking write path sees it: the ids
of existing Event records and the persisted Booking documents
`(eventId, email)`. -/
structure BookingStore where
  events : List Nat
  bookings : List (Nat × String)
deriving DecidableEq

/-- One Booking create: Mongoose trims the email and runs the `isValidEmail`
path validator, then the pre-save hook re-checks the email and queries the
Event collection for the referenced id (`Event.exists`); any failure throws
and nothing is persisted, otherwise the document is inserted. -/
def createBooking (st : BookingStore) (eventId : Nat) (email : String) : Except String BookingStore :=
  let emailT := jsTrimS email
  if isValidEmail emailT.data = false then
    Except.error "Booking email must be a valid email address."
  else if isValidEmail emailT.data = false then
    Except.error "Invalid email format for booking."
  else if eventId ∈ st.events then
    Except.ok { st with bookings := st.bookings ++ [(eventId, emailT)] }
  else
    Except.error "Cannot create booking: referenced event does not exist."

/-- Process-wide connection cache of the connection manager: the resolved
handle, the in-flight attempt (both as in the source `MongooseCache`), and an
instrumentation counter of how many underlying connection attempts
(`mongoose.connect` calls) were initiated. Handles and in-flight attempts
are named by the index of the attempt that created them. -/
structure ConnState where
  conn : Option Nat
  promise : Option Nat
  attempts : Nat
deriving DecidableEq

/-- One complete sequential call of the source `connectToDatabase`: return
the cached handle if present; otherwise reuse or create the in-flight
attempt, then await it — on success cache and return the handle, on failure
clear the cached attempt and surface the error. The `succeed` flag is the
outcome of awaiting the attempt. -/
def connectToDatabase (succeed : Bool) (s : ConnState) : ConnState × Except Unit Nat :=
  match s.conn with
  | some c => (s, Except.ok c)
  | none =>
    let pair := match s.promise with
      | some p => (p, s)
      | none => (s.attempts, { s with promise := some s.attempts, attempts := s.attempts + 1 })
    let p := pair.1
    let s1 := pair.2
    if succeed then ({ s1 with conn := some p }, Except.ok p)
    else ({ s1 with promise := none }, Except.error ())

/-- The state after a sequence of completed `connectToDatabase` calls with
the given outcomes. -/
def runConnectCalls (outcomes : List Bool) (s : ConnState) : ConnState :=
  outcomes.foldl (fun st b => (connectToDatabase b st).1) s

/-- The synchronous section of one `connectToDatabase` call, up to and
including caching the in-flight attempt (lines 58-69 of the source contain
no `await`, so under the JavaScript run-to-completion model this section of
each concurrent caller runs atomically): the caller learns which in-flight
attempt it will await (`none` when a resolved handle is already cached). -/
def connectSyncSection (s : ConnState) : ConnState × Option Nat :=
  match s.conn with
  | some _ => (s, none)
  | none =>
    match s.promise with
    | some p => (s, some p)
    | none => ({ s with promise := some s.attempts, attempts := s.attempts + 1 }, some s.attempts)

/-- Run the synchronous sections of `n` concurrent first-time callers in
arrival order, collecting which attempt each one awaits. -/
def runConcurrentCallers : Nat → ConnState → ConnState × List (Option Nat)
  | 0, s => (s, [])
  | n + 1, s =>
    let step := connectSyncSection s
    let rest := runConcurrentCallers n step.1
    (rest.1, step.2 :: rest.2)

/-- The cache state before any connection exists in the process. -/
def freshConnState : ConnState := { conn := none, promise := none, attempts := 0 }

/-- No two adjacent characters of the list are both hyphens. -/
def noDupHyphens : List Char → Bool
  | [] => true
  | [_] => true
  | a :: b :: t => !(a == '-' && b == '-') && noDupHyphens (b :: t)

/-- The shape the amended time claim ascribes to an accepted (trimmed) time
string: one or two hour digits, a colon, exactly two minute digits, then
optionally a colon and exactly two seconds digits (whose value is not
range-checked), with hour at most 23 and minute at most 59. -/
def TimeShapeSpec (t : List Char) : Prop :=
  ∃ hs ms tail, t = hs ++ ':' :: (ms ++ tail) ∧
    (hs.length = 1 ∨ hs.length = 2) ∧ hs.all isDigitC = true ∧
    ms.length = 2 ∧ ms.all isDigitC = true ∧
    (tail = [] ∨ ∃ s1 s2, tail = [':', s1, s2] ∧ isDigitC s1 = true ∧ isDigitC s2 = true) ∧
    natOfDigits hs ≤ 23 ∧ natOfDigits ms ≤ 59

/-- A fully valid event whose title is the specification's slug example. -/
def meetupEvent : EventDoc :=
  { title := "My Awesome Dev Meetup!!", slug := "", description := "d",
    overview := "o", image := "i", venue := "v", location := "Berlin",
    date := "2024-03-05", time := "9:30", mode := "online", audience := "devs",
    agenda := ["intro"], organizer := "org", tags := ["dev"] }

/-- The document `saveEvent` persists for `meetupEvent`. -/
def meetupEventSaved : EventDoc :=
  { meetupEvent with slug := "my-awesome-dev-meetup", time := "09:30" }

/-- `meetupEvent` with a whitespace-only title, failing the title validator. -/
def badTitleEvent : EventDoc := { meetupEvent with title := " " }

/-- A valid event whose title consists only of characters the slug filter
removes, so its derived slug is empty. -/
def weirdEvent : EventDoc :=
  { meetupEvent with title := "!!!", time := "10:30" }

/-- What `saveEvent` persists for `weirdEvent`: all validators pass and the
stored slug is the empty string. -/
def weirdEventSaved : EventDoc := { weirdEvent with slug := "" }

/-! ### Helper lemmas about trimming -/

theorem jsTrim_idem (l : List Char) : jsTrim (jsTrim l) = jsTrim l := by
  unfold jsTrim
  have h1 : List.dropWhile isJsWhitespace
      (List.rdropWhile isJsWhitespace (List.dropWhile isJsWhitespace l)) =
      List.rdropWhile isJsWhitespace (List.dropWhile isJsWhitespace l) := by
    rw [List.dropWhile_eq_self_iff]
    intro hl
    simp only [List.get_eq_getElem]
    rw [List.IsPrefix.getElem ( List.rdropWhile_prefix isJsWhitespace (List.dropWhile isJsWhitespace l)) hl]
    have hlen : 0 < (List.dropWhile isJsWhitespace l).length :=
      lt_of_lt_of_le hl (List.IsPrefix.length_le ( List.rdropWhile_prefix isJsWhitespace (List.dropWhile isJsWhitespace l)))
    have hne : List.dropWhile isJsWhitespace l ≠ [] := List.length_pos.mp hlen
    rw [← List.head_eq_getElem _ hne]
    simp [List.head_dropWhile_not isJsWhitespace l hne]
  rw [h1, List.rdropWhile_idempotent]

theorem jsTrimS_data (s : String) : (jsTrimS s).data = jsTrim s.data := rfl

theorem nonEmptyString_trimS (s : String) :
    nonEmptyString (jsTrimS s) = nonEmptyString s := by
  simp only [nonEmptyString, jsTrimS_data, jsTrim_idem]

/-! ### Helper lemmas about digits -/

theorem collapseRunsAux_mem (p : Char → Bool) (rep : Char) (l : List Char) :
    ∀ (b : Bool), ∀ c ∈ collapseRunsAux p rep b l, c = rep ∨ (c ∈ l ∧ p c = false) := by
  induction l with
  | nil => intro b c hc; simp [collapseRunsAux] at hc
  | cons x rest ih =>
    intro b c hc
    simp only [collapseRunsAux] at hc
    by_cases hx : p x
    · rw [if_pos hx] at hc
      cases b with
      | false =>
        simp only [if_neg (by simp : ¬ (false = true))] at hc
        rcases List.mem_cons.mp hc with h | h
        · exact Or.inl h
        · rcases ih true c h with h1 | ⟨h2, h3⟩
          · exact Or.inl h1
          · exact Or.inr ⟨List.mem_cons_of_mem x h2, h3⟩
      | true =>
        simp only [if_pos rfl] at hc
        rcases ih true c hc with h1 | ⟨h2, h3⟩
        · exact Or.inl h1
        · exact Or.inr ⟨List.mem_cons_of_mem x h2, h3⟩
    · rw [if_neg hx] at hc
      rcases List.mem_cons.mp hc with h | h
      · subst h
        exact Or.inr ⟨List.mem_cons_self c rest, by simpa using hx⟩
      · rcases ih false c h with h1 | ⟨h2, h3⟩
        · exact Or.inl h1
        · exact Or.inr ⟨List.mem_cons_of_mem x h2, h3⟩

theorem collapseRunsAux_true_head (p : Char → Bool) (rep : Char) (l : List Char) :
    ∀ x xs, collapseRunsAux p rep true l = x :: xs → p x = false := by
  induction l with
  | nil => intro x xs h; simp [collapseRunsAux] at h
  | cons c rest ih =>
    intro x xs h
    by_cases hc : p c
    · have h2 : collapseRunsAux p rep true rest = x :: xs := by
        simpa [collapseRunsAux, hc] using h
      exact ih x xs h2
    · have h2 : c :: collapseRunsAux p rep false rest = x :: xs := by
        simpa [collapseRunsAux, hc] using h
      obtain ⟨h3, _⟩ := List.cons.inj h2
      subst h3
      simpa using hc

theorem noDupHyphens_collapseAux (l : List Char) :
    ∀ (b : Bool), noDupHyphens (collapseRunsAux (fun c => c == '-') '-' b l) = true := by
  induction l with
  | nil => intro b; rfl
  | cons c rest ih =>
    intro b
    by_cases hc : (c == '-') = true
    · cases b with
      | true =>
        have e : collapseRunsAux (fun c => c == '-') '-' true (c :: rest) =
            collapseRunsAux (fun c => c == '-') '-' true rest := by
          simp [collapseRunsAux, hc]
        rw [e]
        exact ih true
      | false =>
        have e : collapseRunsAux (fun c => c == '-') '-' false (c :: rest) =
            '-' :: collapseRunsAux (fun c => c == '-') '-' true rest := by
          simp [collapseRunsAux, hc]
        rw [e]
        cases haux : collapseRunsAux (fun c => c == '-') '-' true rest with
        | nil => rfl
        | cons x xs =>
          have hx := collapseRunsAux_true_head (fun c => c == '-') '-' rest x xs haux
          have hrest := ih true
          rw [haux] at hrest
          simp [noDupHyphens, hx, hrest]
    · have hc2 : (c == '-') = false := by simpa using hc
      have e : collapseRunsAux (fun c => c == '-') '-' b (c :: rest) =
          c :: collapseRunsAux (fun c => c == '-') '-' false rest := by
        simp [collapseRunsAux, hc2]
      rw [e]
      cases haux : collapseRunsAux (fun c => c == '-') '-' false rest with
      | nil => rfl
      | cons x xs =>
        have hrest := ih false
        rw [haux] at hrest
        simp [noDupHyphens, hc2, hrest]

theorem slugKeep_out {c : Char} (hk : isSlugKeepChar c = true)
    (hw : isJsWhitespace c = false) : isSlugOutChar c = true := by
  simp [isSlugKeepChar, hw] at hk
  simpa [isSlugOutChar] using hk

theorem slugify_chars (l : List Char) : ∀ c ∈ slugify l, isSlugOutChar c = true := by
  intro c hc
  unfold slugify collapseRuns at hc
  rcases collapseRunsAux_mem _ '-' _ false c hc with h1 | ⟨h2, _⟩
  · subst h1; decide
  · rcases collapseRunsAux_mem _ '-' _ false c h2 with h3 | ⟨h4, h5⟩
    · subst h3; decide
    · exact slugKeep_out (List.of_mem_filter h4) h5

theorem noDupHyphens_slugify (l : List Char) : noDupHyphens (slugify l) = true := by
  unfold slugify collapseRuns
  exact noDupHyphens_collapseAux _ false

theorem jsToLowerChar_ws (c : Char) :
    isJsWhitespace (jsToLowerChar c) = isJsWhitespace c := by
  unfold jsToLowerChar
  split <;> rfl

theorem jsTrim_map_toLower (l : List Char) :
    jsTrim (l.map jsToLowerChar) = (jsTrim l).map jsToLowerChar := by
  have hp : (isJsWhitespace ∘ jsToLowerChar) = isJsWhitespace := by
    funext c
    simp [Function.comp, jsToLowerChar_ws]
  unfold jsTrim List.rdropWhile
  rw [List.dropWhile_map, hp, ← List.map_reverse, List.dropWhile_map, hp, ← List.map_reverse]

theorem slugify_jsTrim (l : List Char) : slugify (jsTrim l) = slugify l := by
  unfold slugify
  rw [← jsTrim_map_toLower, jsTrim_idem]

theorem slugifyS_jsTrimS (s : String) : slugifyS (jsTrimS s) = slugifyS s := by
  unfold slugifyS
  rw [jsTrimS_data, slugify_jsTrim]

/-! ### Helper lemmas about event validation -/

theorem fieldErr_eq_nil {ok : Bool} {msg : String} : fieldErr ok msg = [] ↔ ok = true := by
  cases ok <;> simp [fieldErr]

theorem arrayFieldOk_iff (l : List String) :
    arrayFieldOk l = true ↔ l ≠ [] ∧ ∀ a ∈ l, nonEmptyString a = true := by
  simp [arrayFieldOk, List.all_eq_true, List.length_pos]

theorem eventValidationErrors_eq_nil_iff (e : EventDoc) :
    eventValidationErrors e = [] ↔
      (nonEmptyString e.title = true ∧ nonEmptyString e.description = true ∧
       nonEmptyString e.overview = true ∧ nonEmptyString e.image = true ∧
       nonEmptyString e.venue = true ∧ nonEmptyString e.location = true ∧
       nonEmptyString e.date = true ∧ nonEmptyString e.time = true ∧
       nonEmptyString e.mode = true ∧ nonEmptyString e.audience = true ∧
       arrayFieldOk e.agenda = true ∧ nonEmptyString e.organizer = true ∧
       arrayFieldOk e.tags = true) := by
  simp only [eventValidationErrors, List.append_eq_nil, fieldErr_eq_nil]
  tauto

/-! ### Claim C3 -/

/-- C3 counterexample: the claim says a derived slug never has a leading or a
trailing hyphen, but the title `"-x-"` derives the slug `"-x-"`, whose first
and last characters are hyphens — `slugify` collapses hyphen runs yet never
strips hyphens from the ends. -/
theorem c3_slug_shape_counterexample :
    slugifyS "-x-" = "-x-" ∧ (slugifyS "-x-").data.head? = some '-' ∧
    (slugifyS "-x-").data.getLast? = some '-' := by decide

/-- C3 (amended): for every title string, the derived slug contains only
lowercase letters, digits, and hyphens, and has no two adjacent hyphens; it
may however begin or end with a hyphen (taken over from the title itself). -/
theorem c3_slug_charset_amended (t : String) :
    (slugifyS t).data.all isSlugOutChar = true ∧
    noDupHyphens (slugifyS t).data = true := by
  constructor
  · rw [List.all_eq_true]
    intro c hc
    exact slugify_chars t.data c hc
  · exact noDupHyphens_slugify t.data

/-! ### Claim C1 -/

/-- C1: on every completed Event save in which the title field changed or no
slug is currently set, the stored slug is `slugify` of the title — lowercase,
trim, remove every character outside `[a-z0-9\s-]`, collapse whitespace runs
to single hyphens, collapse hyphen runs to single hyphens (`slugify` composes
exactly these five steps); the stored title is the trimmed given title. In
particular the title `"My Awesome Dev Meetup!!"` yields the slug
`"my-awesome-dev-meetup"`. -/
theorem c1_slug_derivation :
    (∀ (titleModified : Bool) (e eOut : EventDoc),
      saveEvent titleModified e = Except.ok eOut →
      titleModified = true ∨ nonEmptyString e.slug = false →
      eOut.title = jsTrimS e.title ∧ eOut.slug = slugifyS e.title) ∧
    slugifyS "My Awesome Dev Meetup!!" = "my-awesome-dev-meetup" := by
  refine ⟨?_, by decide⟩
  intro titleModified e eOut hsave hcond
  simp only [saveEvent] at hsave
  split at hsave
  case isFalse => cases hsave
  case isTrue hempty =>
    have hErrs : eventValidationErrors (trimEventFields e) = [] :=
      List.isEmpty_iff.mp hempty
    have hTitle : nonEmptyString (trimEventFields e).title = true :=
      ((eventValidationErrors_eq_nil_iff _).mp hErrs).1
    have hcondB : ((titleModified || (trimEventFields e).slug == "") &&
        nonEmptyString (trimEventFields e).title) = true := by
      rcases hcond with hmod | hslug
      · simp [hmod, hTitle]
      · have hnil : jsTrim e.slug.data = [] := by
          have : (jsTrim e.slug.data).isEmpty = true := by
            simpa [nonEmptyString] using hslug
          exact List.isEmpty_iff.mp this
        have hslugE : (trimEventFields e).slug = "" := by
          show jsTrimS e.slug = ""
          simp [jsTrimS, hnil]
        simp [hslugE, hTitle]
    rw [if_pos hcondB] at hsave
    split at hsave
    case h_1 d t hd ht =>
      obtain rfl : _ = eOut := Except.ok.inj hsave
      refine ⟨rfl, ?_⟩
      show slugifyS (trimEventFields e).title = slugifyS e.title
      show slugifyS (jsTrimS e.title) = slugifyS e.title
      exact slugifyS_jsTrimS e.title
    case h_2 => cases hsave
    case h_3 => cases hsave

/-- Witness for C1: a concrete successful save with a modified title, where
the persisted document's slug is the slug of its title. -/
theorem c1_slug_derivation_witness :
    meetupEventSaved.title = jsTrimS meetupEvent.title ∧
    meetupEventSaved.slug = slugifyS meetupEvent.title :=
  c1_slug_derivation.1 true meetupEvent meetupEventSaved (by decide) (Or.inl rfl)

/-! ### Claim C5 -/

/-- C5: on every Event create or update, document validation passes exactly
when `title`, `description`, `overview`, `image`, `venue`, `location`,
`date`, `time`, `mode`, `audience` and `organizer` are non-empty after
trimming and `agenda` and `tags` are non-empty collections all of whose
elements are non-empty after trimming; each failing check contributes a
validation message naming the offending field; and a document failing any
check makes the save fail with those validation errors, so nothing is
persisted. -/
theorem c5_field_validation (e : EventDoc) :
    (eventValidationErrors (trimEventFields e) = [] ↔
      (nonEmptyString e.title = true ∧ nonEmptyString e.description = true ∧
       nonEmptyString e.overview = true ∧ nonEmptyString e.image = true ∧
       nonEmptyString e.venue = true ∧ nonEmptyString e.location = true ∧
       nonEmptyString e.date = true ∧ nonEmptyString e.time = true ∧
       nonEmptyString e.mode = true ∧ nonEmptyString e.audience = true ∧
       (e.agenda ≠ [] ∧ ∀ a ∈ e.agenda, nonEmptyString a = true) ∧
       nonEmptyString e.organizer = true ∧
       (e.tags ≠ [] ∧ ∀ a ∈ e.tags, nonEmptyString a = true))) ∧
    (nonEmptyString e.title = false →
      "Event title is required." ∈ eventValidationErrors (trimEventFields e)) ∧
    (nonEmptyString e.description = false →
      "Event description is required." ∈ eventValidationErrors (trimEventFields e)) ∧
    (nonEmptyString e.overview = false →
      "Event overview is required." ∈ eventValidationErrors (trimEventFields e)) ∧
    (nonEmptyString e.image = false →
      "Event image is required." ∈ eventValidationErrors (trimEventFields e)) ∧
    (nonEmptyString e.venue = false →
      "Event venue is required." ∈ eventValidationErrors (trimEventFields e)) ∧
    (nonEmptyString e.location = false →
      "Event location is required." ∈ eventValidationErrors (trimEventFields e)) ∧
    (nonEmptyString e.date = false →
      "Event date is required." ∈ eventValidationErrors (trimEventFields e)) ∧
    (nonEmptyString e.time = false →
      "Event time is required." ∈ eventValidationErrors (trimEventFields e)) ∧
    (nonEmptyString e.mode = false →
      "Event mode is required." ∈ eventValidationErrors (trimEventFields e)) ∧
    (nonEmptyString e.audience = false →
      "Event audience is required." ∈ eventValidationErrors (trimEventFields e)) ∧
    ((¬ (e.agenda ≠ [] ∧ ∀ a ∈ e.agenda, nonEmptyString a = true)) →
      "Event agenda must contain at least one non-empty item." ∈
        eventValidationErrors (trimEventFields e)) ∧
    (nonEmptyString e.organizer = false →
      "Event organizer is required." ∈ eventValidationErrors (trimEventFields e)) ∧
    ((¬ (e.tags ≠ [] ∧ ∀ a ∈ e.tags, nonEmptyString a = true)) →
      "Event tags must contain at least one non-empty tag." ∈
        eventValidationErrors (trimEventFields e)) ∧
    (eventValidationErrors (trimEventFields e) ≠ [] →
      ∀ titleModified, saveEvent titleModified e =
        Except.error (eventValidationErrors (trimEventFields e))) := by
  refine ⟨?_, ?_, ?_, ?_, ?_, ?_, ?_, ?_, ?_, ?_, ?_, ?_, ?_, ?_, ?_⟩
  · rw [eventValidationErrors_eq_nil_iff]
    simp [trimEventFields, nonEmptyString_trimS, arrayFieldOk_iff]
  · intro h
    simp [eventValidationErrors, trimEventFields, nonEmptyString_trimS, fieldErr, h,
      List.mem_append]
  · intro h
    simp [eventValidationErrors, trimEventFields, nonEmptyString_trimS, fieldErr, h,
      List.mem_append]
  · intro h
    simp [eventValidationErrors, trimEventFields, nonEmptyString_trimS, fieldErr, h,
      List.mem_append]
  · intro h
    simp [eventValidationErrors, trimEventFields, nonEmptyString_trimS, fieldErr, h,
      List.mem_append]
  · intro h
    simp [eventValidationErrors, trimEventFields, nonEmptyString_trimS, fieldErr, h,
      List.mem_append]
  · intro h
    simp [eventValidationErrors, trimEventFields, nonEmptyString_trimS, fieldErr, h,
      List.mem_append]
  · intro h
    simp [eventValidationErrors, trimEventFields, nonEmptyString_trimS, fieldErr, h,
      List.mem_append]
  · intro h
    simp [eventValidationErrors, trimEventFields, nonEmptyString_trimS, fieldErr, h,
      List.mem_append]
  · intro h
    simp [eventValidationErrors, trimEventFields, nonEmptyString_trimS, fieldErr, h,
      List.mem_append]
  · intro h
    simp [eventValidationErrors, trimEventFields, nonEmptyString_trimS, fieldErr, h,
      List.mem_append]
  · intro h
    have hb : arrayFieldOk e.agenda = false := by
      cases hb2 : arrayFieldOk e.agenda
      · rfl
      · exact absurd ((arrayFieldOk_iff _).mp hb2) h
    simp [eventValidationErrors, trimEventFields, fieldErr, hb, List.mem_append]
  · intro h
    simp [eventValidationErrors, trimEventFields, nonEmptyString_trimS, fieldErr, h,
      List.mem_append]
  · intro h
    have hb : arrayFieldOk e.tags = false := by
      cases hb2 : arrayFieldOk e.tags
      · rfl
      · exact absurd ((arrayFieldOk_iff _).mp hb2) h
    simp [eventValidationErrors, trimEventFields, fieldErr, hb, List.mem_append]
  · intro hne titleModified
    have hno : ¬ ((eventValidationErrors (trimEventFields e)).isEmpty = true) := by
      simpa [List.isEmpty_iff] using hne
    simp only [saveEvent]
    rw [if_neg hno]

/-- Witness for C5: a document with a whitespace-only title fails validation
with the message naming the title field. -/
theorem c5_field_validation_witness :
    "Event title is required." ∈ eventValidationErrors (trimEventFields badTitleEvent) :=
  (c5_field_validation badTitleEvent).2.1 (by decide)

/-! ### Claim C10 -/

/-- C10: there is a title that is non-empty after trimming (here `"!!!"`,
consisting only of characters the slug filter removes) whose derived slug is
empty; an Event with that title passes all field validations and is persisted
with an empty slug (the `slug` path has no validator of its own); and two
distinct such titles (`"!!!"` and `"?!"`) derive the same empty slug. -/
theorem c10_empty_slug :
    nonEmptyString weirdEvent.title = true ∧
    saveEvent true weirdEvent = Except.ok weirdEventSaved ∧
    weirdEventSaved.slug = "" ∧
    slugifyS "!!!" = "" ∧ slugifyS "?!" = "" ∧ ("!!!" : String) ≠ "?!" := by
  decide

/-! ### Helper lemmas about the time regex -/

theorem natOfDigits_one (a : Char) : natOfDigits [a] = digitVal a := by
  simp [natOfDigits]

theorem natOfDigits_two (a b : Char) : natOfDigits [a, b] = twoDigitVal a b := by
  simp [natOfDigits, twoDigitVal]

theorem exceptMap_isOk {ε α β : Type} (f : α → β) (x : Except ε α) :
    (x.map f).isOk = x.isOk := by
  cases x <;> rfl

theorem except_isOk_iff {ε α : Type} (x : Except ε α) :
    x.isOk = true ↔ ∃ a, x = Except.ok a := by
  cases x <;> simp [Except.isOk, Except.toBool]

theorem normalizeTime_ok_iff (l : List Char) :
    (∃ r, normalizeTime l = Except.ok r) ↔
      ∃ h m, jsTimeMatch (jsTrim l) = some (h, m) ∧ h ≤ 23 ∧ m ≤ 59 := by
  unfold normalizeTime
  cases hj : jsTimeMatch (jsTrim l) with
  | none => simp
  | some hm =>
    obtain ⟨h, m⟩ := hm
    by_cases hcond : h ≤ 23 ∧ m ≤ 59
    · simp [hcond]
      exact ⟨h, m, ⟨rfl, rfl⟩, hcond.1, hcond.2⟩
    · simp [hcond]
      intro hh
      omega

theorem jsTimeMatch_some_iff (t : List Char) :
    (∃ h m, jsTimeMatch t = some (h, m) ∧ h ≤ 23 ∧ m ≤ 59) ↔ TimeShapeSpec t := by
  constructor
  · rintro ⟨h, m, hmatch, hh, hm⟩
    rw [jsTimeMatch.eq_def] at hmatch
    split at hmatch
    case h_1 h1 m1 m2 =>
      split at hmatch
      case isTrue hg =>
        simp only [Bool.and_eq_true] at hg
        obtain ⟨⟨hg1, hg2⟩, hg3⟩ := hg
        obtain ⟨he1, he2⟩ := Prod.mk.inj (Option.some.inj hmatch)
        exact ⟨[h1], [m1, m2], [], by simp, Or.inl rfl, by simp [hg1], rfl,
          by simp [hg2, hg3], Or.inl rfl,
          by rw [natOfDigits_one, he1]; exact hh,
          by rw [natOfDigits_two, he2]; exact hm⟩
      case isFalse => cases hmatch
    case h_2 h1 h2 m1 m2 =>
      split at hmatch
      case isTrue hg =>
        simp only [Bool.and_eq_true] at hg
        obtain ⟨⟨⟨hg1, hg2⟩, hg3⟩, hg4⟩ := hg
        obtain ⟨he1, he2⟩ := Prod.mk.inj (Option.some.inj hmatch)
        exact ⟨[h1, h2], [m1, m2], [], by simp, Or.inr rfl, by simp [hg1, hg2], rfl,
          by simp [hg3, hg4], Or.inl rfl,
          by rw [natOfDigits_two, he1]; exact hh,
          by rw [natOfDigits_two, he2]; exact hm⟩
      case isFalse => cases hmatch
    case h_3 h1 m1 m2 s1 s2 =>
      split at hmatch
      case isTrue hg =>
        simp only [Bool.and_eq_true] at hg
        obtain ⟨⟨⟨⟨hg1, hg2⟩, hg3⟩, hg4⟩, hg5⟩ := hg
        obtain ⟨he1, he2⟩ := Prod.mk.inj (Option.some.inj hmatch)
        exact ⟨[h1], [m1, m2], [':', s1, s2], by simp, Or.inl rfl, by simp [hg1], rfl,
          by simp [hg2, hg3], Or.inr ⟨s1, s2, rfl, hg4, hg5⟩,
          by rw [natOfDigits_one, he1]; exact hh,
          by rw [natOfDigits_two, he2]; exact hm⟩
      case isFalse => cases hmatch
    case h_4 h1 h2 m1 m2 s1 s2 =>
      split at hmatch
      case isTrue hg =>
        simp only [Bool.and_eq_true] at hg
        obtain ⟨⟨⟨⟨⟨hg1, hg2⟩, hg3⟩, hg4⟩, hg5⟩, hg6⟩ := hg
        obtain ⟨he1, he2⟩ := Prod.mk.inj (Option.some.inj hmatch)
        exact ⟨[h1, h2], [m1, m2], [':', s1, s2], by simp, Or.inr rfl, by simp [hg1, hg2], rfl,
          by simp [hg3, hg4], Or.inr ⟨s1, s2, rfl, hg5, hg6⟩,
          by rw [natOfDigits_two, he1]; exact hh,
          by rw [natOfDigits_two, he2]; exact hm⟩
      case isFalse => cases hmatch
    case h_5 => cases hmatch
  · rintro ⟨hs, ms, tail, ht, hlen, hdig, hmslen, hmsdig, htail, hhb, hmb⟩
    subst ht
    obtain ⟨c, d, rfl⟩ := List.length_eq_two.mp hmslen
    have hcd : isDigitC c = true ∧ isDigitC d = true := by simpa using hmsdig
    rcases hlen with h1 | h2
    · obtain ⟨a, rfl⟩ := List.length_eq_one.mp h1
      have ha : isDigitC a = true := by simpa using hdig
      rw [natOfDigits_one] at hhb
      rw [natOfDigits_two] at hmb
      rcases htail with rfl | ⟨s1, s2, rfl, hs1, hs2⟩
      · exact ⟨digitVal a, twoDigitVal c d,
          by simp [jsTimeMatch, ha, hcd.1, hcd.2], hhb, hmb⟩
      · exact ⟨digitVal a, twoDigitVal c d,
          by simp [jsTimeMatch, ha, hcd.1, hcd.2, hs1, hs2], hhb, hmb⟩
    · obtain ⟨a, b, rfl⟩ := List.length_eq_two.mp h2
      have hab : isDigitC a = true ∧ isDigitC b = true := by simpa using hdig
      rw [natOfDigits_two] at hhb
      rw [natOfDigits_two] at hmb
      rcases htail with rfl | ⟨s1, s2, rfl, hs1, hs2⟩
      · exact ⟨twoDigitVal a b, twoDigitVal c d,
          by simp [jsTimeMatch, hab.1, hab.2, hcd.1, hcd.2], hhb, hmb⟩
      · exact ⟨twoDigitVal a b, twoDigitVal c d,
          by simp [jsTimeMatch, hab.1, hab.2, hcd.1, hcd.2, hs1, hs2], hhb, hmb⟩

/-! ### Claim C2 -/

/-- C2 counterexample: the claim says a seconds component greater than 59
fails with a validation error, but the source only syntax-checks the seconds
group (`(?::(\d{2}))?`) and never range-checks it: the input `"10:30:99"`
succeeds and is stored as `"10:30"`. -/
theorem c2_time_counterexample :
    normalizeTimeS "10:30:99" = Except.ok "10:30" := by decide

/-- C2 (amended): `normalizeTime` succeeds exactly when the trimmed input is
one or two hour digits, a colon, exactly two minute digits, optionally
followed by a colon and exactly two seconds digits — the hour at most 23 and
the minute at most 59, the seconds value unchecked (`00`-`99`) — and on
success it returns the zero-padded hour and minute with any seconds
component discarded; every other input fails with a validation error. -/
theorem c2_time_amended (s : String) :
    ((normalizeTimeS s).isOk = true ↔ TimeShapeSpec (jsTrim s.data)) ∧
    (∀ h m, jsTimeMatch (jsTrim s.data) = some (h, m) → h ≤ 23 → m ≤ 59 →
      normalizeTimeS s = Except.ok (String.mk (pad2 h ++ ':' :: pad2 m))) := by
  constructor
  · rw [normalizeTimeS, exceptMap_isOk, except_isOk_iff, normalizeTime_ok_iff]
    exact jsTimeMatch_some_iff (jsTrim s.data)
  · intro h m hj hh hm
    rw [normalizeTimeS, normalizeTime, hj]
    simp [hh, hm, Except.map]

/-- Witness for C2 (amended): `"9:30:99"` has the accepted shape (seconds
`99` notwithstanding) and normalizes to the zero-padded `"09:30"`. -/
theorem c2_time_amended_witness :
    (normalizeTimeS "9:30:99").isOk = true ∧
    normalizeTimeS "9:30:99" = Except.ok "09:30" :=
  ⟨(c2_time_amended "9:30:99").1.mpr
    ⟨['9'], ['3', '0'], [':', '9', '9'], by decide, by decide, by decide, by decide,
      by decide, Or.inr ⟨'9', '9', by decide, by decide, by decide⟩, by decide, by decide⟩,
   ((c2_time_amended "9:30:99").2 9 30 (by decide) (by decide) (by decide)).trans (by decide)⟩

/-! ### Helper lemmas about the date parser -/

theorem isValidEmail_trim (l : List Char) :
    isValidEmail (jsTrim l) = isValidEmail l := by
  unfold isValidEmail
  rw [jsTrim_idem]

theorem dotNotLast_iff (l : List Char) :
    dotNotLast l = true ↔ ∃ m r, l = m ++ '.' :: r ∧ r ≠ [] := by
  induction l with
  | nil =>
    simp only [dotNotLast]
    constructor
    · intro h; cases h
    · rintro ⟨m, r, hmr, -⟩
      cases m <;> cases hmr
  | cons c rest ih =>
    cases rest with
    | nil =>
      simp only [dotNotLast]
      constructor
      · intro h; cases h
      · rintro ⟨m, r, hmr, hr⟩
        cases m with
        | nil =>
          obtain ⟨-, h2⟩ := List.cons.inj hmr
          exact absurd h2.symm hr
        | cons x m2 =>
          obtain ⟨-, h2⟩ := List.cons.inj hmr
          cases m2 <;> cases h2
    | cons r1 rest2 =>
      rw [show dotNotLast (c :: r1 :: rest2) =
        ((c == '.') || dotNotLast (r1 :: rest2)) from rfl]
      constructor
      · intro h
        rcases Bool.or_eq_true _ _ |>.mp h with hc | hrec
        · exact ⟨[], r1 :: rest2, by simp [beq_iff_eq.mp hc], by simp⟩
        · obtain ⟨m, r, hmr, hr⟩ := ih.mp hrec
          exact ⟨c :: m, r, by rw [List.cons_append, ← hmr], hr⟩
      · rintro ⟨m, r, hmr, hr⟩
        cases m with
        | nil =>
          obtain ⟨h1, -⟩ := List.cons.inj hmr
          simp [h1]
        | cons x m2 =>
          obtain ⟨-, h2⟩ := List.cons.inj hmr
          have := ih.mpr ⟨m2, r, h2, hr⟩
          simp [this]

theorem hasInteriorDot_iff (d : List Char) :
    hasInteriorDot d = true ↔ ∃ m r, d = m ++ '.' :: r ∧ m ≠ [] ∧ r ≠ [] := by
  cases d with
  | nil =>
    simp only [hasInteriorDot]
    constructor
    · intro h; cases h
    · rintro ⟨m, r, hmr, -, -⟩
      cases m <;> cases hmr
  | cons c rest =>
    rw [show hasInteriorDot (c :: rest) = dotNotLast rest from rfl, dotNotLast_iff]
    constructor
    · rintro ⟨m, r, rfl, hr⟩
      exact ⟨c :: m, r, rfl, by simp, hr⟩
    · rintro ⟨m, r, hmr, hm, hr⟩
      cases m with
      | nil => exact absurd rfl hm
      | cons x m2 =>
        obtain ⟨-, h2⟩ := List.cons.inj hmr
        exact ⟨m2, r, h2, hr⟩

theorem isValidEmail_iff (l : List Char) :
    isValidEmail l = true ↔ EmailShapeSpec (jsTrim l) := by
  unfold isValidEmail EmailShapeSpec
  constructor
  · intro h
    cases hd : (jsTrim l).dropWhile okEmailChar with
    | nil => rw [hd] at h; cases h
    | cons x dtail =>
      rw [hd] at h
      simp only [Bool.and_eq_true, Bool.not_eq_true', beq_iff_eq] at h
      obtain ⟨⟨⟨hx, hne⟩, hall⟩, hdot⟩ := h
      subst hx
      obtain ⟨m, r, rfl, hm, hr⟩ := (hasInteriorDot_iff dtail).mp hdot
      rw [List.all_eq_true] at hall
      refine ⟨(jsTrim l).takeWhile okEmailChar, m, r, ?_, ?_, hm, hr, ?_, ?_, ?_⟩
      · conv_lhs => rw [← List.takeWhile_append_dropWhile okEmailChar (jsTrim l)]
        rw [hd]
      · intro hemp
        rw [hemp] at hne
        cases hne
      · intro c hc
        exact List.mem_takeWhile_imp hc
      · intro c hc
        exact hall c (by simp [hc])
      · intro c hc
        exact hall c (by simp [hc])
  · rintro ⟨l1, m, r, heq, hl1, hm, hr, hokl, hokm, hokr⟩
    have hdw : (jsTrim l).dropWhile okEmailChar = '@' :: (m ++ '.' :: r) := by
      rw [heq, List.dropWhile_append_of_pos hokl,
        List.dropWhile_cons_of_neg (by decide : ¬ okEmailChar '@' = true)]
    have htw : (jsTrim l).takeWhile okEmailChar = l1 := by
      rw [heq, List.takeWhile_append_of_pos hokl,
        List.takeWhile_cons_of_neg (by decide : ¬ okEmailChar '@' = true)]
      simp
    rw [hdw, htw]
    simp only [Bool.and_eq_true, beq_iff_eq, Bool.not_eq_true']
    refine ⟨⟨⟨trivial, by simpa [List.isEmpty_iff] using hl1⟩, ?_⟩, ?_⟩
    · rw [List.all_eq_true]
      intro c hc
      rcases List.mem_append.mp hc with hcm | hcr
      · exact hokm c hcm
      · rcases List.mem_cons.mp hcr with rfl | hcr2
        · decide
        · exact hokr c hcr2
    · exact (hasInteriorDot_iff _).mpr ⟨m, r, rfl, hm, hr⟩

/-! ### Claim C6 -/

/-- C6: the Booking email check passes exactly when the trimmed email splits
as a non-empty `@`-free, whitespace-free local part, an `@`, and a domain of
`@`-free, whitespace-free characters containing an interior dot; in
particular every accepted email contains an `@` and a dot after the `@`
(so an email lacking either is rejected), and a Booking create with an
invalid email fails with the email validation error. -/
theorem c6_email_validation (email : String) :
    (isValidEmail email.data = true ↔ EmailShapeSpec (jsTrim email.data)) ∧
    (isValidEmail email.data = true →
      '@' ∈ jsTrim email.data ∧
      ∃ l d, jsTrim email.data = l ++ '@' :: d ∧ '@' ∉ l ∧ '.' ∈ d) ∧
    (∀ (st : BookingStore) (id : Nat), isValidEmail email.data = false →
      createBooking st id email =
        Except.error "Booking email must be a valid email address.") := by
  refine ⟨isValidEmail_iff email.data, ?_, ?_⟩
  · intro h
    obtain ⟨l1, m, r, heq, hl1, hm, hr, hokl, hokm, hokr⟩ :=
      (isValidEmail_iff email.data).mp h
    constructor
    · rw [heq]
      simp
    · refine ⟨l1, m ++ '.' :: r, heq, ?_, by simp⟩
      intro hmem
      have := hokl '@' hmem
      simp [okEmailChar] at this
  · intro st id h
    have hT : isValidEmail (jsTrimS email).data = false := by
      rw [jsTrimS_data, isValidEmail_trim]
      exact h
    unfold createBooking
    rw [if_pos hT]

/-- Witness for C6: a concrete well-formed email is accepted. -/
theorem c6_email_validation_witness :
    isValidEmail ("user@example.com" : String).data = true :=
  (c6_email_validation "user@example.com").1.mpr
    ⟨"user".data, "example".data, "com".data, by decide, by decide, by decide,
      by decide, by decide, by decide, by decide⟩

/-! ### Claim C4 -/

/-- C4: creating a Booking whose `eventId` matches no existing Event record
fails with the referential error stating that the referenced event does not
exist; the create returns an error, so no Booking document is persisted and
the store is left unchanged. -/
theorem c4_booking_referential (st : BookingStore) (id : Nat) (email : String)
    (hemail : isValidEmail email.data = true) (hid : id ∉ st.events) :
    createBooking st id email =
      Except.error "Cannot create booking: referenced event does not exist." ∧
    ∀ st2, createBooking st id email ≠ Except.ok st2 := by
  have hT : isValidEmail (jsTrimS email).data = true := by
    rw [jsTrimS_data, isValidEmail_trim]
    exact hemail
  have hmain : createBooking st id email =
      Except.error "Cannot create booking: referenced event does not exist." := by
    unfold createBooking
    rw [if_neg (by simp [hT]), if_neg (by simp [hT]), if_neg hid]
  exact ⟨hmain, fun st2 hok => by rw [hmain] at hok; cases hok⟩

/-- Witness for C4: booking event `2` against a store that only contains
event `1` fails referentially. -/
theorem c4_booking_referential_witness :
    createBooking ⟨[1], []⟩ 2 "a@b.c" =
      Except.error "Cannot create booking: referenced event does not exist." :=
  (c4_booking_referential ⟨[1], []⟩ 2 "a@b.c" (by decide) (by decide)).1

/-! ### Helper lemmas about the connection cache -/

theorem runConnectCalls_cached (outcomes : List Bool) :
    ∀ (s : ConnState) (c : Nat), s.conn = some c → runConnectCalls outcomes s = s := by
  induction outcomes with
  | nil => intro s c h; rfl
  | cons b rest ih =>
    intro s c h
    have hstep : connectToDatabase b s = (s, Except.ok c) := by
      unfold connectToDatabase
      rw [h]
    unfold runConnectCalls
    simp only [List.foldl_cons]
    rw [hstep]
    exact ih s c h

theorem runConcurrentCallers_joined (n : Nat) :
    ∀ a : Nat,
      runConcurrentCallers n { conn := none, promise := some 0, attempts := a } =
        ({ conn := none, promise := some 0, attempts := a }, List.replicate n (some 0)) := by
  induction n with
  | zero => intro a; rfl
  | succ k ih =>
    intro a
    have hstep : connectSyncSection { conn := none, promise := some 0, attempts := a } =
        ({ conn := none, promise := some 0, attempts := a }, some 0) := rfl
    unfold runConcurrentCallers
    rw [hstep]
    simp only
    rw [ih a]
    rfl

/-! ### Claim C8 -/

/-- C8: once a call has succeeded (a handle is cached), every later call
returns the same cached handle and leaves the state — in particular the
attempt counter — unchanged; a failing call on an unresolved cache clears the
cached in-flight attempt and surfaces the error to the caller; the next call
after such a failure initiates a fresh connection attempt; and along any
sequence of calls without failures at most one underlying connection attempt
is ever initiated. -/
theorem c8_connection_cache :
    (∀ (succeed : Bool) (s : ConnState) (c : Nat), s.conn = some c →
      connectToDatabase succeed s = (s, Except.ok c)) ∧
    (∀ s : ConnState, s.conn = none →
      (connectToDatabase false s).1.promise = none ∧
      (connectToDatabase false s).2 = Except.error ()) ∧
    (∀ (succeed : Bool) (s : ConnState), s.conn = none → s.promise = none →
      (connectToDatabase succeed s).1.attempts = s.attempts + 1) ∧
    (∀ outcomes : List Bool, (∀ b ∈ outcomes, b = true) →
      (runConnectCalls outcomes freshConnState).attempts ≤ 1) := by
  refine ⟨?_, ?_, ?_, ?_⟩
  · intro succeed s c h
    unfold connectToDatabase
    rw [h]
  · intro s h
    unfold connectToDatabase
    rw [h]
    cases hp : s.promise <;> simp
  · intro succeed s h hp
    unfold connectToDatabase
    rw [h, hp]
    cases succeed <;> simp
  · intro outcomes hall
    cases outcomes with
    | nil => decide
    | cons b rest =>
      have hb : b = true := hall b (by simp)
      subst hb
      unfold runConnectCalls
      simp only [List.foldl_cons]
      have hstep : (connectToDatabase true freshConnState).1 =
          { conn := some 0, promise := some 0, attempts := 1 } := rfl
      rw [hstep]
      have hrest := runConnectCalls_cached rest
        { conn := some 0, promise := some 0, attempts := 1 } 0 rfl
      unfold runConnectCalls at hrest
      rw [hrest]

/-- Witness for C8: a cached handle is returned unchanged, and two
consecutive successful calls from a fresh cache initiate one attempt. -/
theorem c8_connection_cache_witness :
    connectToDatabase true { conn := some 5, promise := none, attempts := 1 } =
      ({ conn := some 5, promise := none, attempts := 1 }, Except.ok 5) ∧
    (runConnectCalls [true, true] freshConnState).attempts ≤ 1 :=
  ⟨c8_connection_cache.1 true { conn := some 5, promise := none, attempts := 1 } 5 rfl,
   c8_connection_cache.2.2.2 [true, true] (by decide)⟩

/-! ### Claim C9 -/

/-- C9: when `n + 1` callers run the synchronous section of
`connectToDatabase` (which contains no `await` before the in-flight attempt
is cached, so each section runs atomically under JavaScript
run-to-completion) from a fresh cache, exactly one underlying connection
attempt is initiated and every caller converges on (awaits) that same
in-flight attempt. -/
theorem c9_concurrent_single_attempt (n : Nat) :
    (runConcurrentCallers (n + 1) freshConnState).1.attempts = 1 ∧
    ∀ x ∈ (runConcurrentCallers (n + 1) freshConnState).2, x = some 0 := by
  have h1 : connectSyncSection freshConnState =
      ({ conn := none, promise := some 0, attempts := 1 }, some 0) := rfl
  unfold runConcurrentCallers
  rw [h1]
  simp only
  rw [runConcurrentCallers_joined n 1]
  constructor
  · rfl
  · intro x hx
    rcases List.mem_cons.mp hx with rfl | hx2
    · rfl
    · exact List.eq_of_mem_replicate hx2

/-- Witness for C9: with three concurrent first-time callers, one attempt is
initiated, and the attempt the first caller awaits is attempt `0`. -/
theorem c9_concurrent_single_attempt_witness :
    (runConcurrentCallers 3 freshConnState).1.attempts = 1 ∧
    (some 0 : Option Nat) = some 0 :=
  ⟨(c9_concurrent_single_attempt 2).1,
   (c9_concurrent_single_attempt 2).2 (some 0) (by decide)⟩
